import Mathlib

/-!
Verification of the `unrollbench` benchmark-loop unroller.

The Go program (unrollbench.go) parses test files, finds benchmark functions
(`isBench`), finds canonical `for i := 0; i < b.N; i++` loops at the top level
of their bodies (`isBenchForLoop`), and replaces each matched loop with a
conditional that keeps the original loop for small `b.N` and a ten-fold
unrolled loop for large `b.N` (`unrolled`).  The development below gives a
shallow embedding of the go/ast fragment the program manipulates, translates
the three functions and the driver loop of `main`, and proves the spec's
claims about them.
-/

namespace Unrollbench

/-- Subset of go/token tokens that unrollbench inspects or constructs:
`token.LSS` (<), `token.QUO` (/), `token.INC` (++), `token.DEC` (--),
`token.INT` (integer literal kind), `token.DEFINE` (:=), `token.ASSIGN` (=),
plus a catch-all for every other token. -/
inductive Tok where
  | lss
  | quo
  | inc
  | dec
  | intLit
  | defineTok
  | assignEq
  | otherTok (tag : String)
  deriving DecidableEq, Repr

/-- Subset of go/ast expressions that unrollbench inspects or constructs:
`*ast.Ident`, `*ast.SelectorExpr` (x.sel), `*ast.BinaryExpr`, `*ast.BasicLit`,
`*ast.StarExpr` (used as the pointer type `*testing.B`), and a catch-all for
every other expression form (calls, literals, ...), which the program never
looks inside. -/
inductive Expr where
  | ident (name : String)
  | selector (x : Expr) (sel : String)
  | binary (x : Expr) (op : Tok) (y : Expr)
  | basicLit (kind : Tok) (value : String)
  | star (x : Expr)
  | otherExpr (tag : String)
  deriving DecidableEq, Repr

/-- Subset of go/ast statements that unrollbench inspects or constructs:
`*ast.ForStmt` (all three clauses optional, body a `*ast.BlockStmt`
represented by its statement list), `*ast.IfStmt`, `*ast.AssignStmt`,
`*ast.IncDecStmt`, `*ast.BlockStmt` used as a statement, and a catch-all for
every other statement form, which the program never looks inside. -/
inductive Stmt where
  | forStmt (ini : Option Stmt) (cond : Option Expr) (post : Option Stmt) (body : List Stmt)
  | ifStmt (cond : Expr) (body : List Stmt) (els : Option Stmt)
  | assign (lhs : List Expr) (rhs : List Expr) (tok : Tok)
  | incDec (x : Expr) (tok : Tok)
  | block (body : List Stmt)
  | other (tag : String)

/-- One `*ast.Field` of a parameter list: a group of names sharing a type,
as in `func f(a, b int)`. -/
structure Field where
  names : List String
  type : Expr
  deriving DecidableEq, Repr

/-- An `*ast.FuncDecl`: name, parameter list (`nil`-able in go/ast, hence
`Option`), and body statement list. -/
structure FuncDecl where
  name : String
  params : Option (List Field)
  body : List Stmt

/-- A top-level declaration: either a function declaration or anything else
(imports, types, vars, ...), which `main` skips via the `*ast.FuncDecl`
type assertion. -/
inductive Decl where
  | funcDecl (fn : FuncDecl)
  | otherDecl (tag : String)

/-- An `*ast.File`: the parsed syntax tree of one source file. -/
structure File where
  decls : List Decl

/-- `strings.ToLower`, modelled character-wise (ASCII case mapping, which is
all that benchmark function names exercise). -/
def goToLower (s : String) : String :=
  String.mk (s.data.map Char.toLower)

/-- `strings.HasPrefix`. -/
def goStartsWith (s pre : String) : Bool :=
  pre.data.isPrefixOf s.data

/-- The body of the parameter loop of `isBench` (unrollbench.go lines
110-127): the group must declare the single name `b` (`len(p.Names) != 1 ||
p.Names[0].Name != "b"` skips it otherwise) and its type must be a
`*ast.StarExpr` around `testing.B`. -/
def benchParam (p : Field) : Bool :=
  if p.names.length != 1 || p.names.headD "" != "b" then
    false
  else
    match p.type with
    | Expr.star sx =>
      match sx with
      | Expr.selector ssx "B" =>
        match ssx with
        | Expr.ident "testing" => true
        | _ => false
      | _ => false
    | _ => false

/-- Translation of `isBench` (unrollbench.go lines 102-130): the name must
lower-case to something starting with "bench", the parameter list must be
present and nonempty, and some parameter group must pass `benchParam`. -/
def isBench (n : FuncDecl) : Bool :=
  if !(goStartsWith (goToLower n.name) "bench") || n.params.isNone
      || (n.params.getD []).length = 0 then
    false
  else
    (n.params.getD []).any benchParam

/-- Translation of `isBenchForLoop` (unrollbench.go lines 141-193): matches
`for i := ...; i < b.N; i++ { body }` where `i` is any identifier; returns
the identifier name and the loop body on a match, mirroring the sequence of
structural checks of the source. -/
def isBenchForLoop (n : Stmt) : Option (String × List Stmt) :=
  match n with
  | Stmt.forStmt fini fcond fpost fbody =>
    match fini, fcond, fpost with
    | some ini, some cond, some post =>
      match cond with
      | Expr.binary bx op yv =>
        if op != Tok.lss then none
        else
          match yv with
          | Expr.selector sx "N" =>
            match sx with
            | Expr.ident "b" =>
              match bx with
              | Expr.ident iname =>
                match ini with
                | Stmt.assign [inilhs] [_] _ =>
                  match inilhs with
                  | Expr.ident lname =>
                    if lname != iname then none
                    else
                      match post with
                      | Stmt.incDec px ptok =>
                        if ptok != Tok.inc then none
                        else
                          match px with
                          | Expr.ident pname =>
                            if pname != iname then none
                            else some (iname, fbody)
                          | _ => none
                      | _ => none
                  | _ => none
                | _ => none
              | _ => none
            | _ => none
          | _ => none
      | _ => none
    | _, _, _ => none
  | _ => none

/-- Translation of `unrolled` (unrollbench.go lines 195-259).  The arguments
`ini`, `cond`, `post` are the clauses `f.Init`, `f.Cond`, `f.Post` of the
matched `*ast.ForStmt`, `id` and `body` the matcher's results.  Note that the
synthesized `b.N` occurrences are built with `ast.NewIdent("b.N")` — a single
identifier whose name contains a dot ("cheating a little") — and that the ten
copies of `body` are appended by the `for i := 0; i < 10; i++` loop at lines
231-234. -/
def unrolled (ini : Option Stmt) (cond : Option Expr) (post : Option Stmt)
    (id : String) (body : List Stmt) : Stmt :=
  let ifCond : Expr :=
    Expr.binary (Expr.ident "b.N") Tok.lss (Expr.basicLit Tok.intLit "10")
  let thenBlock : List Stmt := [Stmt.forStmt ini cond post body]
  let ten : List Stmt :=
    (List.range 10).foldl (fun acc _ => acc ++ [Stmt.block body]) []
  let elseCond : Expr :=
    Expr.binary (Expr.ident id) Tok.lss
      (Expr.binary (Expr.ident "b.N") Tok.quo (Expr.basicLit Tok.intLit "10"))
  Stmt.ifStmt ifCond thenBlock
    (some (Stmt.block [Stmt.forStmt ini (some elseCond) post ten]))

/-- The effect of one iteration of the statement loop of `main`
(unrollbench.go lines 73-80) on a single statement: a matched loop is
replaced by its unrolled conditional, every other statement is left alone
(`continue`). -/
def rewriteStmt (s : Stmt) : Stmt :=
  match s, isBenchForLoop s with
  | Stmt.forStmt ini cond post _, some (id, body) => unrolled ini cond post id body
  | _, _ => s

/-- The statement loop of `main` (lines 73-80) over a whole function body:
each top-level statement is independently matched and, if matched, replaced
in place at its index (`fn.Body.List[i] = newfor`). -/
def rewriteBody (l : List Stmt) : List Stmt :=
  l.map rewriteStmt

/-- One iteration of the statement loop of `main` (lines 73-80) in isolation,
exposing the in-place update at index `i`: if the statement at `i` is a
matched loop it is spliced out for its unrolled conditional, otherwise the
body is untouched. -/
def rewriteAt (l : List Stmt) (i : Nat) : List Stmt :=
  match l.getD i (Stmt.other "") with
  | Stmt.forStmt ini cond post fbody =>
    match isBenchForLoop (Stmt.forStmt ini cond post fbody) with
    | some (id, body) => l.set i (unrolled ini cond post id body)
    | none => l
  | _ => l

/-- The declaration loop of `main` (lines 55-81) on one declaration:
non-function declarations and non-benchmark functions are skipped, benchmark
functions get their body rewritten. -/
def rewriteDecl (d : Decl) : Decl :=
  match d with
  | Decl.funcDecl fn =>
    if isBench fn then
      Decl.funcDecl { fn with body := rewriteBody fn.body }
    else
      d
  | Decl.otherDecl _ => d

/-- The whole match-and-rewrite pass of `main` over one parsed file. -/
def rewriteFile (f : File) : File :=
  { decls := f.decls.map rewriteDecl }

/-- Whether some benchmark function of the file contains a matched loop,
i.e. whether the pass changes anything in the file. -/
def fileHasMatch (f : File) : Bool :=
  f.decls.any fun d =>
    match d with
    | Decl.funcDecl fn => isBench fn && fn.body.any fun s => (isBenchForLoop s).isSome
    | Decl.otherDecl _ => false

/-- The per-file loop of `main` (lines 42-91): every file of the processing
list — matched or not — is rewritten and then written back; the write list
records one write per input file, in order. -/
def mainWrites (files : List (String × File)) : List (String × File) :=
  files.map fun pf => (pf.1, rewriteFile pf.2)

/-- The canonical benchmark-parameter type `*testing.B`. -/
def TestingBPtr : Expr :=
  Expr.star (Expr.selector (Expr.ident "testing") "B")

/-- The spec's scenario statement: `for i := 0; i < b.N; i++ { work() }`. -/
def workStmt : Stmt := Stmt.other "work()"

/-- The canonical matched loop of the spec's scenario. -/
def benchLoopEx : Stmt :=
  Stmt.forStmt
    (some (Stmt.assign [Expr.ident "i"] [Expr.basicLit Tok.intLit "0"] Tok.defineTok))
    (some (Expr.binary (Expr.ident "i") Tok.lss (Expr.selector (Expr.ident "b") "N")))
    (some (Stmt.incDec (Expr.ident "i") Tok.inc))
    [workStmt]

/-- Pointer-level view of where `unrolled` places the matched loop body
(a `*ast.BlockStmt` pointer in the source, modelled as a reference id):
the then-branch for reuses the pointer as its `Body` (line 226), and the
slice `ten` is filled with the same pointer by the append loop (lines
231-234); no clone of the node is ever made. -/
def unrolledBodyRefs (body : Nat) : Nat × List Nat :=
  (body, (List.range 10).foldl (fun acc _ => acc ++ [body]) [])

/-- A parameter group declaring two names `b, b2` of type `*testing.B`,
as in `func BenchmarkFoo(b, b2 *testing.B)`. -/
def groupedField : Field :=
  { names := ["b", "b2"], type := TestingBPtr }

/-- A benchmark-shaped function whose `b *testing.B` parameter shares its
group with a second name. -/
def groupedBenchFn : FuncDecl :=
  { name := "BenchmarkFoo"
    params := some [groupedField]
    body := [] }

/-- Run-time state for executing the Go fragment the rewriter manipulates. -/
structure St where
  bN : Int
  vars : List (String × Int)
  count : Nat

def St.setVar (st : St) (x : String) (v : Int) : St :=
  ⟨st.bN, (x, v) :: st.vars, st.count⟩

def St.bump (st : St) : St :=
  ⟨st.bN, st.vars, st.count + 1⟩

def St.addCount (st : St) (k : Nat) : St :=
  ⟨st.bN, st.vars, st.count + k⟩

def lookupVar (vs : List (String × Int)) (x : String) : Int :=
  match vs with
  | [] => 0
  | (y, v) :: rest => if y = x then v else lookupVar rest x

def parseIntLit (s : String) : Option Int :=
  let ds := s.data
  if ds ≠ [] ∧ ds.all (fun c => '0' ≤ c ∧ c ≤ '9') then
    some (ds.foldl (fun acc c => 10 * acc + (c.toNat - '0'.toNat : Int)) 0)
  else
    none

def evalInt (st : St) : Expr → Option Int
  | Expr.ident x => some (if x = "b.N" then st.bN else lookupVar st.vars x)
  | Expr.selector sx f =>
    match sx, f with
    | Expr.ident "b", "N" => some st.bN
    | _, _ => none
  | Expr.basicLit k v =>
    match k with
    | Tok.intLit => parseIntLit v
    | _ => none
  | Expr.binary x op y =>
    match op with
    | Tok.quo =>
      match evalInt st x, evalInt st y with
      | some a, some b => some (Int.tdiv a b)
      | _, _ => none
    | _ => none
  | _ => none

def evalBool (st : St) : Expr → Option Bool
  | Expr.binary x op y =>
    match op with
    | Tok.lss =>
      match evalInt st x, evalInt st y with
      | some a, some b => some (decide (a < b))
      | _, _ => none
    | _ => none
  | _ => none

mutual

def execStmt (fuel : Nat) (s : Stmt) (st : St) : Option St :=
  match s with
  | Stmt.other _ => some st.bump
  | Stmt.assign lhs rhs _ =>
    match lhs, rhs with
    | [Expr.ident x], [e] =>
      match evalInt st e with
      | some v => some (st.setVar x v)
      | none => none
    | _, _ => none
  | Stmt.incDec x tk =>
    match x, tk with
    | Expr.ident y, Tok.inc => some (st.setVar y (lookupVar st.vars y + 1))
    | Expr.ident y, Tok.dec => some (st.setVar y (lookupVar st.vars y - 1))
    | _, _ => none
  | Stmt.block l => execStmts fuel l st
  | Stmt.ifStmt c body els =>
    match evalBool st c with
    | none => none
    | some true => execStmts fuel body st
    | some false => execElse fuel els st
  | Stmt.forStmt ini cond post body =>
    match ini, cond, post with
    | some i0, some c, some p =>
      match execStmt fuel i0 st with
      | some st1 => execFor fuel c p body st1
      | none => none
    | _, _, _ => none
termination_by (fuel, sizeOf s)

def execElse (fuel : Nat) (els : Option Stmt) (st : St) : Option St :=
  match els with
  | some e => execStmt fuel e st
  | none => some st
termination_by (fuel, sizeOf els)

def execStmts (fuel : Nat) (l : List Stmt) (st : St) : Option St :=
  match l with
  | [] => some st
  | s :: rest =>
    match execStmt fuel s st with
    | some st1 => execStmts fuel rest st1
    | none => none
termination_by (fuel, sizeOf l)

def execFor : Nat → Expr → Stmt → List Stmt → St → Option St
  | 0, _, _, _, _ => none
  | f + 1, cond, post, body, st =>
    match evalBool st cond with
    | none => none
    | some b =>
      if b then
        match execStmts (f + 1) body st with
        | some st1 =>
          match execStmt (f + 1) post st1 with
          | some st2 => execFor f cond post body st2
          | none => none
        | none => none
      else
        some st
termination_by fuel cond post body _st => (fuel, 1 + sizeOf cond + sizeOf post + sizeOf body)

end

/-- The initial state of one benchmark run: iteration count `N`, no
variables, no body executions yet. -/
def initSt (N : Int) : St := ⟨N, [], 0⟩

/-- Enough fuel to run the canonical loop (and its unrolled form) for
iteration count `N`: fuel is consumed once per loop iteration. -/
def benchFuel (N : Int) : Nat := N.toNat + 2

/-- The in-place splice of `main` (line 79, `fn.Body.List[i] = newfor`) seen
at file level: one iteration of the statement loop applied at statement
index `i` of the function declaration at index `di`; everything else is
untouched. -/
def rewriteAtFile (f : File) (di i : Nat) : File :=
  match f.decls.getD di (Decl.otherDecl "") with
  | Decl.funcDecl fn =>
    ⟨f.decls.set di (Decl.funcDecl { fn with body := rewriteAt fn.body i })⟩
  | Decl.otherDecl _ => f

/-- Model of the write-back of `main` (lines 83-90) at the file-system
level: `os.OpenFile(file, os.O_WRONLY|os.O_TRUNC, fi.Mode())` truncates the
destination to empty in place, then `printer.Fprint` streams the emitted
text into it; `failAfter = some k` models a print failure after `k`
characters (on which `fatal` exits the process, line 88), `none` a
successful print. No temporary file or rename is involved. -/
def overwriteResult (newText : String) (failAfter : Option Nat) : String :=
  match failAfter with
  | none => newText
  | some k => ⟨newText.data.take k⟩

/-- A concrete two-declaration test file: an opaque declaration followed by
a benchmark function whose body is an opaque setup statement and then the
canonical loop. -/
def frameFnEx : FuncDecl :=
  { name := "BenchmarkFoo"
    params := some [{ names := ["b"], type := TestingBPtr }]
    body := [Stmt.other "setup()", benchLoopEx] }

def frameFileEx : File :=
  ⟨[Decl.otherDecl "import", Decl.funcDecl frameFnEx]⟩

/-- The exact statement shape `isBenchForLoop` accepts: a three-clause for
loop whose condition is `idv < b.N` with `idv` a bare identifier, whose
initializer is a single assignment to `idv` (any right-hand side, any
assignment token), and whose post-statement is `idv++`. -/
def IsCanonicalLoop (s : Stmt) (idv : String) (body : List Stmt) : Prop :=
  ∃ rhs tk,
    s = Stmt.forStmt
      (some (Stmt.assign [Expr.ident idv] [rhs] tk))
      (some (Expr.binary (Expr.ident idv) Tok.lss
        (Expr.selector (Expr.ident "b") "N")))
      (some (Stmt.incDec (Expr.ident idv) Tok.inc))
      body

lemma isBenchForLoop_eq_some (s : Stmt) (idv : String) (body : List Stmt) :
    isBenchForLoop s = some (idv, body) ↔ IsCanonicalLoop s idv body := by
  constructor
  · intro h
    unfold isBenchForLoop at h
    repeat' split at h
    all_goals simp_all
    all_goals exact ⟨_, _, rfl⟩
  · rintro ⟨rhs, tk, rfl⟩
    simp [isBenchForLoop]

lemma isBenchForLoop_unrolled (ini : Option Stmt) (cond : Option Expr)
    (post : Option Stmt) (id : String) (body : List Stmt) :
    isBenchForLoop (unrolled ini cond post id body) = none := rfl

lemma rewriteStmt_of_none {s : Stmt} (h : isBenchForLoop s = none) :
    rewriteStmt s = s := by
  cases s <;> simp [rewriteStmt, h]

lemma rewriteStmt_of_some {s : Stmt} {idv : String} {body : List Stmt}
    (h : isBenchForLoop s = some (idv, body)) :
    ∃ rhs tk, rewriteStmt s = unrolled
      (some (Stmt.assign [Expr.ident idv] [rhs] tk))
      (some (Expr.binary (Expr.ident idv) Tok.lss
        (Expr.selector (Expr.ident "b") "N")))
      (some (Stmt.incDec (Expr.ident idv) Tok.inc)) idv body := by
  obtain ⟨rhs, tk, rfl⟩ := (isBenchForLoop_eq_some _ _ _).mp h
  exact ⟨rhs, tk, by simp [rewriteStmt, h]⟩

lemma rewriteStmt_idem (s : Stmt) :
    rewriteStmt (rewriteStmt s) = rewriteStmt s := by
  cases h : isBenchForLoop s with
  | none => rw [rewriteStmt_of_none h, rewriteStmt_of_none h]
  | some r =>
    obtain ⟨idv, body⟩ := r
    obtain ⟨rhs, tk, heq⟩ := rewriteStmt_of_some h
    rw [heq, rewriteStmt_of_none (isBenchForLoop_unrolled _ _ _ _ _)]

lemma rewriteBody_idem (l : List Stmt) :
    rewriteBody (rewriteBody l) = rewriteBody l := by
  induction l with
  | nil => rfl
  | cons s rest ih =>
    simpa [rewriteBody, rewriteStmt_idem s] using ih

lemma isBench_with_body (fn : FuncDecl) (b : List Stmt) :
    isBench { fn with body := b } = isBench fn := rfl

lemma rewriteDecl_idem (d : Decl) :
    rewriteDecl (rewriteDecl d) = rewriteDecl d := by
  cases d with
  | otherDecl t => rfl
  | funcDecl fn =>
    by_cases hb : isBench fn = true
    · simp [rewriteDecl, hb, isBench_with_body, rewriteBody_idem]
    · simp [rewriteDecl, hb]

lemma rewriteFile_idem (f : File) :
    rewriteFile (rewriteFile f) = rewriteFile f := by
  rcases f with ⟨decls⟩
  simp [rewriteFile, List.map_map]
  intro d _
  exact rewriteDecl_idem d

lemma benchParam_iff (p : Field) :
    benchParam p = true ↔ p.names = ["b"] ∧ p.type = TestingBPtr := by
  rcases p with ⟨names, ty⟩
  unfold benchParam
  constructor
  · intro h
    repeat' split at h
    all_goals simp_all [TestingBPtr]
    all_goals rcases names with _ | ⟨x, _ | ⟨y, rest⟩⟩ <;> simp_all
  · rintro ⟨h1, h2⟩
    simp_all [TestingBPtr]

lemma isBench_eq_true_iff (n : FuncDecl) :
    isBench n = true ↔
      goStartsWith (goToLower n.name) "bench" = true ∧
      ∃ ps, n.params = some ps ∧ ps ≠ [] ∧
        ∃ p ∈ ps, p.names = ["b"] ∧ p.type = TestingBPtr := by
  rcases n with ⟨name, params, body⟩
  cases params with
  | none => simp [isBench]
  | some ps =>
    simp [isBench, List.any_eq_true, benchParam_iff]
    tauto

/-- The ten-element slice built by the append loop at lines 231-234 is ten
occurrences of one and the same element. -/
lemma ten_foldl_eq_replicate (x : Stmt) :
    (List.range 10).foldl (fun acc _ => acc ++ [x]) [] = List.replicate 10 x := rfl

/-- The full shape of the conditional `unrolled` constructs. -/
lemma unrolled_shape (ini : Option Stmt) (cond : Option Expr) (post : Option Stmt)
    (idv : String) (body : List Stmt) :
    unrolled ini cond post idv body =
      Stmt.ifStmt
        (Expr.binary (Expr.ident "b.N") Tok.lss (Expr.basicLit Tok.intLit "10"))
        [Stmt.forStmt ini cond post body]
        (some (Stmt.block [Stmt.forStmt ini
          (some (Expr.binary (Expr.ident idv) Tok.lss
            (Expr.binary (Expr.ident "b.N") Tok.quo (Expr.basicLit Tok.intLit "10"))))
          post
          (List.replicate 10 (Stmt.block body))])) := rfl

end Unrollbench

namespace Unrollbench

/-- Claim C1 (counterexample): it is not the case that the ten body
statements placed in the unrolled loop are pairwise distinct nodes all
different from the original body node — at pointer level they are all the
very same node. -/
theorem unrolled_clones_counterexample :
    ¬ (List.Pairwise (fun a b => a ≠ b) (unrolledBodyRefs 0).2 ∧
       ∀ p ∈ (unrolledBodyRefs 0).2, p ≠ (unrolledBodyRefs 0).1) := by
  decide

/-- Claim C1 (amended): the rewriter places ten references to one and the
same body node — the original loop body, which the small-N branch also
reuses — inside the unrolled loop; no clones are made. -/
theorem unrolled_body_refs_shared (b : Nat) :
    (unrolledBodyRefs b).1 = b ∧ (unrolledBodyRefs b).2 = List.replicate 10 b ∧
    ∀ x ∈ (unrolledBodyRefs b).2, x = (unrolledBodyRefs b).1 := by
  refine ⟨rfl, rfl, ?_⟩
  intro x hx
  rw [show (unrolledBodyRefs b).2 = List.replicate 10 b from rfl] at hx
  exact List.eq_of_mem_replicate hx

/-- Claim C4: the match-and-rewrite pass is idempotent — applying it twice
to any file equals applying it once, and the replacement conditional is
never matched by the loop matcher. -/
theorem rewrite_pass_idempotent :
    (∀ f : File, rewriteFile (rewriteFile f) = rewriteFile f) ∧
    (∀ (ini : Option Stmt) (cond : Option Expr) (post : Option Stmt)
        (idv : String) (body : List Stmt),
        isBenchForLoop (unrolled ini cond post idv body) = none) :=
  ⟨rewriteFile_idem,
   fun ini cond post idv body => isBenchForLoop_unrolled ini cond post idv body⟩

/-- Claim C5: the loop matcher returns `some (idv, body)` exactly for a
three-clause for loop `for idv := ...; idv < b.N; idv++ { body }` (strict
less-than, right-hand side the selector `N` on the identifier `b`, single
assignment initializer targeting `idv`, plain `++` post-statement of `idv`),
and on a non-match the rewrite leaves the statement untouched. -/
theorem loop_matcher_characterization (s : Stmt) (idv : String) (body : List Stmt) :
    (isBenchForLoop s = some (idv, body) ↔ IsCanonicalLoop s idv body) ∧
    (isBenchForLoop s = none → rewriteStmt s = s) :=
  ⟨isBenchForLoop_eq_some s idv body, fun h => rewriteStmt_of_none h⟩

/-- Claim C6 (counterexample): a function `BenchmarkFoo(b, b2 *testing.B)`
has a parameter named `b` of type `*testing.B` and a "bench"-prefixed name,
yet `isBench` rejects it, because the `b` shares its parameter group with a
second name. -/
theorem isBench_grouped_param_counterexample :
    isBench groupedBenchFn = false ∧
    goStartsWith (goToLower groupedBenchFn.name) "bench" = true ∧
    ∃ ps, groupedBenchFn.params = some ps ∧ ps ≠ [] ∧
      ∃ p ∈ ps, p.names.contains "b" = true ∧ p.type = TestingBPtr := by
  refine ⟨rfl, by decide, ⟨[groupedField], rfl, by simp, groupedField, by simp,
    by decide, rfl⟩⟩

/-- Claim C6 (amended): `isBench` accepts a declaration iff its lower-cased
name starts with "bench", its parameter list is present and nonempty, and
some parameter group declares exactly the single name `b` with type
`*testing.B` — a `b` grouped together with other names is not recognized. -/
theorem isBench_characterization (n : FuncDecl) :
    isBench n = true ↔
      goStartsWith (goToLower n.name) "bench" = true ∧
      ∃ ps, n.params = some ps ∧ ps ≠ [] ∧
        ∃ p ∈ ps, p.names = ["b"] ∧ p.type = TestingBPtr :=
  isBench_eq_true_iff n

/-- Claim C10: in the conditional the rewriter constructs, both synthesized
occurrences of `b.N` (the `b.N < 10` test and the `b.N / 10` bound) are a
single identifier node whose name is the string "b.N", not a selector of
field `N` on identifier `b`; consequently the synthesized unrolled loop does
not have the selector structure the loop matcher requires. -/
theorem synthesized_bN_single_ident (ini : Option Stmt) (cond : Option Expr)
    (post : Option Stmt) (idv : String) (body : List Stmt) :
    unrolled ini cond post idv body =
      Stmt.ifStmt
        (Expr.binary (Expr.ident "b.N") Tok.lss (Expr.basicLit Tok.intLit "10"))
        [Stmt.forStmt ini cond post body]
        (some (Stmt.block [Stmt.forStmt ini
          (some (Expr.binary (Expr.ident idv) Tok.lss
            (Expr.binary (Expr.ident "b.N") Tok.quo (Expr.basicLit Tok.intLit "10"))))
          post
          (List.replicate 10 (Stmt.block body))])) ∧
    (∀ (x : Expr) (s : String), Expr.ident "b.N" ≠ Expr.selector x s) ∧
    isBenchForLoop (Stmt.forStmt ini
      (some (Expr.binary (Expr.ident idv) Tok.lss
        (Expr.binary (Expr.ident "b.N") Tok.quo (Expr.basicLit Tok.intLit "10"))))
      post (List.replicate 10 (Stmt.block body))) = none := by
  refine ⟨unrolled_shape ini cond post idv body, fun x s => by simp, ?_⟩
  cases ini <;> cases post <;> simp [isBenchForLoop]

end Unrollbench

namespace Unrollbench

lemma execStmt_other (fuel : Nat) (t : String) (st : St) :
    execStmt fuel (Stmt.other t) st = some st.bump := by
  rw [execStmt]

lemma execStmts_nil (fuel : Nat) (st : St) :
    execStmts fuel [] st = some st := by
  rw [execStmts]

lemma execStmts_cons_some {fuel : Nat} {s : Stmt} {rest : List Stmt} {st st1 : St}
    (h : execStmt fuel s st = some st1) :
    execStmts fuel (s :: rest) st = execStmts fuel rest st1 := by
  rw [execStmts, h]

lemma execStmt_block (fuel : Nat) (l : List Stmt) (st : St) :
    execStmt fuel (Stmt.block l) st = execStmts fuel l st := by
  rw [execStmt]

lemma execFor_of_false {st : St} {cond : Expr} (post : Stmt) (body : List Stmt)
    (f : Nat) (h : evalBool st cond = some false) :
    execFor (f + 1) cond post body st = some st := by
  rw [execFor, h]
  simp

lemma execFor_step {f : Nat} {cond : Expr} {post : Stmt} {body : List Stmt}
    {st st1 st2 : St}
    (hc : evalBool st cond = some true)
    (hb : execStmts (f + 1) body st = some st1)
    (hp : execStmt (f + 1) post st1 = some st2) :
    execFor (f + 1) cond post body st = execFor f cond post body st2 := by
  rw [execFor, hc]
  simp [hb, hp]

lemma execStmts_replicate_block (w : String) :
    ∀ (m fuel : Nat) (st : St),
      execStmts fuel (List.replicate m (Stmt.block [Stmt.other w])) st =
        some (st.addCount m) := by
  intro m
  induction m with
  | zero =>
    intro fuel st
    rw [List.replicate_zero, execStmts_nil]
    rcases st with ⟨bN, vars, count⟩
    simp [St.addCount]
  | succ m ih =>
    intro fuel st
    have h1 : execStmt fuel (Stmt.block [Stmt.other w]) st = some (st.addCount 1) := by
      rw [execStmt_block, execStmts_cons_some (execStmt_other fuel w st), execStmts_nil]
      rfl
    rw [List.replicate_succ, execStmts_cons_some h1, ih]
    rcases st with ⟨bN, vars, count⟩
    simp [St.addCount]
    omega

lemma setVar_bN (st : St) (x : String) (v : Int) : (st.setVar x v).bN = st.bN := rfl

lemma execFor_counting (idv : String) (hidv : idv ≠ "b.N")
    (bexpr : Expr) (N B : Int)
    (hB : ∀ st : St, st.bN = N → evalInt st bexpr = some B)
    (body : List Stmt) (k : Nat)
    (hbody : ∀ (fuel : Nat) (st : St), execStmts fuel body st = some (st.addCount k)) :
    ∀ (n fuel : Nat), n < fuel → ∀ (st : St), st.bN = N →
      (B - lookupVar st.vars idv).toNat = n →
      ∃ vars', execFor fuel
          (Expr.binary (Expr.ident idv) Tok.lss bexpr)
          (Stmt.incDec (Expr.ident idv) Tok.inc) body st
        = some ⟨N, vars', st.count + k * n⟩ := by
  intro n
  induction n with
  | zero =>
    intro fuel hf st hbn hn
    obtain ⟨f, rfl⟩ : ∃ f, fuel = f + 1 := ⟨fuel - 1, by omega⟩
    rcases st with ⟨bN0, vars0, count0⟩
    have hbn' : bN0 = N := hbn
    subst bN0
    have h1 : evalInt ⟨N, vars0, count0⟩ (Expr.ident idv)
        = some (lookupVar vars0 idv) := by
      simp [evalInt, hidv]
    have h2 := hB ⟨N, vars0, count0⟩ rfl
    have hnotlt : ¬ (lookupVar vars0 idv < B) := by
      simp only [St.vars] at hn
      omega
    have hc : evalBool ⟨N, vars0, count0⟩
        (Expr.binary (Expr.ident idv) Tok.lss bexpr) = some false := by
      simp [evalBool, h1, h2, hnotlt]
    exact ⟨vars0, by rw [execFor_of_false _ _ _ hc]; simp⟩
  | succ n ih =>
    intro fuel hf st hbn hn
    obtain ⟨f, rfl⟩ : ∃ f, fuel = f + 1 := ⟨fuel - 1, by omega⟩
    rcases st with ⟨bN0, vars0, count0⟩
    have hbn' : bN0 = N := hbn
    subst bN0
    simp only [St.vars] at hn
    have hlt : lookupVar vars0 idv < B := by omega
    have h1 : evalInt ⟨N, vars0, count0⟩ (Expr.ident idv)
        = some (lookupVar vars0 idv) := by
      simp [evalInt, hidv]
    have h2 := hB ⟨N, vars0, count0⟩ rfl
    have hc : evalBool ⟨N, vars0, count0⟩
        (Expr.binary (Expr.ident idv) Tok.lss bexpr) = some true := by
      simp [evalBool, h1, h2, hlt]
    have hb : execStmts (f + 1) body ⟨N, vars0, count0⟩
        = some ⟨N, vars0, count0 + k⟩ := hbody (f + 1) ⟨N, vars0, count0⟩
    have hp : execStmt (f + 1) (Stmt.incDec (Expr.ident idv) Tok.inc)
        ⟨N, vars0, count0 + k⟩
        = some ⟨N, (idv, lookupVar vars0 idv + 1) :: vars0, count0 + k⟩ := by
      rw [execStmt]
      rfl
    have hstep := execFor_step hc hb hp
    have hbn2 : (⟨N, (idv, lookupVar vars0 idv + 1) :: vars0, count0 + k⟩ : St).bN = N := rfl
    have hlk : lookupVar ((idv, lookupVar vars0 idv + 1) :: vars0) idv
        = lookupVar vars0 idv + 1 := by
      simp [lookupVar]
    have hn2 : (B - lookupVar (⟨N, (idv, lookupVar vars0 idv + 1) :: vars0,
        count0 + k⟩ : St).vars idv).toNat = n := by
      simp only [St.vars, hlk]
      omega
    obtain ⟨vars', hrun⟩ := ih f (by omega) _ hbn2 hn2
    refine ⟨vars', ?_⟩
    rw [hstep, hrun]
    have heq : count0 + k + k * n = count0 + k * (n + 1) := by ring
    simp only [St.count]
    rw [heq]

end Unrollbench

namespace Unrollbench

lemma parseIntLit_zero : parseIntLit "0" = some 0 := by decide

lemma parseIntLit_ten : parseIntLit "10" = some 10 := by decide

lemma execStmt_if_true {fuel : Nat} {c : Expr} {body : List Stmt}
    {els : Option Stmt} {st : St} (h : evalBool st c = some true) :
    execStmt fuel (Stmt.ifStmt c body els) st = execStmts fuel body st := by
  rw [execStmt, h]

lemma execStmt_if_false {fuel : Nat} {c : Expr} {body : List Stmt} {e : Stmt}
    {st : St} (h : evalBool st c = some false) :
    execStmt fuel (Stmt.ifStmt c body (some e)) st = execStmt fuel e st := by
  rw [execStmt, h, execElse]

lemma execStmt_canonicalFor (idv : String) (hidv : idv ≠ "b.N")
    (bexpr : Expr) (N B : Int)
    (hB : ∀ st : St, st.bN = N → evalInt st bexpr = some B)
    (body : List Stmt) (k : Nat)
    (hbody : ∀ (fuel : Nat) (st : St), execStmts fuel body st = some (st.addCount k))
    (tk : Tok) (fuel : Nat) (hfuel : B.toNat < fuel)
    (vars0 : List (String × Int)) (count0 : Nat) :
    ∃ vars', execStmt fuel
        (Stmt.forStmt
          (some (Stmt.assign [Expr.ident idv] [Expr.basicLit Tok.intLit "0"] tk))
          (some (Expr.binary (Expr.ident idv) Tok.lss bexpr))
          (some (Stmt.incDec (Expr.ident idv) Tok.inc))
          body)
        ⟨N, vars0, count0⟩
      = some ⟨N, vars', count0 + k * B.toNat⟩ := by
  have hini : execStmt fuel
      (Stmt.assign [Expr.ident idv] [Expr.basicLit Tok.intLit "0"] tk)
      ⟨N, vars0, count0⟩ = some ⟨N, (idv, 0) :: vars0, count0⟩ := by
    rw [execStmt]
    rfl
  have hlk : lookupVar ((idv, 0) :: vars0) idv = 0 := by simp [lookupVar]
  obtain ⟨vars', hrun⟩ := execFor_counting idv hidv bexpr N B hB body k hbody
      B.toNat fuel hfuel ⟨N, (idv, 0) :: vars0, count0⟩ rfl
      (by simp only [St.vars, hlk]; omega)
  refine ⟨vars', ?_⟩
  rw [execStmt, hini]
  simpa using hrun

end Unrollbench

namespace Unrollbench

/-- Claim C3: for every iteration count `b.N` below 10 (in particular 0, 1,
5, 9), the conditional the rewriter produces for the canonical scenario loop
executes the loop body exactly `b.N` times and ends in exactly the same
state as the original loop it replaced. -/
theorem small_bN_semantic_equivalence (N : Int) (h0 : 0 ≤ N) (h9 : N < 10) :
    ∃ st' : St,
      execStmt (benchFuel N) (rewriteStmt benchLoopEx) (initSt N) = some st' ∧
      execStmt (benchFuel N) benchLoopEx (initSt N) = some st' ∧
      st'.count = N.toNat := by
  have hB : ∀ st : St, st.bN = N →
      evalInt st (Expr.selector (Expr.ident "b") "N") = some N := fun st h => by
    simp [evalInt, h]
  have hbody : ∀ (fuel : Nat) (st : St),
      execStmts fuel [workStmt] st = some (st.addCount 1) := fun fuel st => by
    show execStmts fuel [Stmt.other "work()"] st = some (st.addCount 1)
    rw [execStmts_cons_some (execStmt_other fuel _ st), execStmts_nil]
    rfl
  obtain ⟨vars', hrun⟩ := execStmt_canonicalFor "i" (by decide)
      (Expr.selector (Expr.ident "b") "N") N N hB [workStmt] 1 hbody
      Tok.defineTok (benchFuel N) (by unfold benchFuel; omega) [] 0
  have horig : execStmt (benchFuel N) benchLoopEx (initSt N)
      = some ⟨N, vars', 0 + 1 * N.toNat⟩ := hrun
  have hcondT : evalBool (initSt N) (Expr.binary (Expr.ident "b.N") Tok.lss
      (Expr.basicLit Tok.intLit "10")) = some true := by
    simp [evalBool, evalInt, initSt, parseIntLit_ten, h9]
  have hshape : rewriteStmt benchLoopEx = Stmt.ifStmt
      (Expr.binary (Expr.ident "b.N") Tok.lss (Expr.basicLit Tok.intLit "10"))
      [benchLoopEx]
      (some (Stmt.block [Stmt.forStmt
        (some (Stmt.assign [Expr.ident "i"] [Expr.basicLit Tok.intLit "0"] Tok.defineTok))
        (some (Expr.binary (Expr.ident "i") Tok.lss
          (Expr.binary (Expr.ident "b.N") Tok.quo (Expr.basicLit Tok.intLit "10"))))
        (some (Stmt.incDec (Expr.ident "i") Tok.inc))
        (List.replicate 10 (Stmt.block [workStmt]))])) := rfl
  have hrew : execStmt (benchFuel N) (rewriteStmt benchLoopEx) (initSt N)
      = some ⟨N, vars', 0 + 1 * N.toNat⟩ := by
    rw [hshape, execStmt_if_true hcondT, execStmts_cons_some horig, execStmts_nil]
  exact ⟨⟨N, vars', 0 + 1 * N.toNat⟩, hrew, horig, by simp⟩

/-- Claim C2: for every iteration count `b.N ≥ 10`, the conditional the
rewriter produces for the canonical scenario loop takes the else branch and
executes the loop body exactly `10 * floor(b.N / 10)` times. -/
theorem large_bN_truncation (N : Int) (h10 : 10 ≤ N) :
    ∃ st' : St,
      execStmt (benchFuel N) (rewriteStmt benchLoopEx) (initSt N) = some st' ∧
      st'.count = 10 * (Int.tdiv N 10).toNat := by
  have h0 : (0 : Int) ≤ N := by omega
  have htd : Int.tdiv N 10 = N / 10 := Int.tdiv_eq_ediv h0 (by norm_num)
  have hB : ∀ st : St, st.bN = N →
      evalInt st (Expr.binary (Expr.ident "b.N") Tok.quo
        (Expr.basicLit Tok.intLit "10")) = some (Int.tdiv N 10) := fun st h => by
    simp [evalInt, h, parseIntLit_ten]
  obtain ⟨vars', hrun⟩ := execStmt_canonicalFor "i" (by decide)
      (Expr.binary (Expr.ident "b.N") Tok.quo (Expr.basicLit Tok.intLit "10"))
      N (Int.tdiv N 10) hB
      (List.replicate 10 (Stmt.block [workStmt])) 10
      (fun fuel st => execStmts_replicate_block "work()" 10 fuel st)
      Tok.defineTok (benchFuel N) (by unfold benchFuel; rw [htd]; omega) [] 0
  have hnl : ¬ (N < 10) := by omega
  have hcondF : evalBool (initSt N) (Expr.binary (Expr.ident "b.N") Tok.lss
      (Expr.basicLit Tok.intLit "10")) = some false := by
    simp [evalBool, evalInt, initSt, parseIntLit_ten, hnl]
  have hshape : rewriteStmt benchLoopEx = Stmt.ifStmt
      (Expr.binary (Expr.ident "b.N") Tok.lss (Expr.basicLit Tok.intLit "10"))
      [benchLoopEx]
      (some (Stmt.block [Stmt.forStmt
        (some (Stmt.assign [Expr.ident "i"] [Expr.basicLit Tok.intLit "0"] Tok.defineTok))
        (some (Expr.binary (Expr.ident "i") Tok.lss
          (Expr.binary (Expr.ident "b.N") Tok.quo (Expr.basicLit Tok.intLit "10"))))
        (some (Stmt.incDec (Expr.ident "i") Tok.inc))
        (List.replicate 10 (Stmt.block [workStmt]))])) := rfl
  have hforElse : execStmt (benchFuel N) (Stmt.forStmt
      (some (Stmt.assign [Expr.ident "i"] [Expr.basicLit Tok.intLit "0"] Tok.defineTok))
      (some (Expr.binary (Expr.ident "i") Tok.lss
        (Expr.binary (Expr.ident "b.N") Tok.quo (Expr.basicLit Tok.intLit "10"))))
      (some (Stmt.incDec (Expr.ident "i") Tok.inc))
      (List.replicate 10 (Stmt.block [workStmt]))) (initSt N)
      = some ⟨N, vars', 0 + 10 * (Int.tdiv N 10).toNat⟩ := hrun
  have hrew : execStmt (benchFuel N) (rewriteStmt benchLoopEx) (initSt N)
      = some ⟨N, vars', 0 + 10 * (Int.tdiv N 10).toNat⟩ := by
    rw [hshape, execStmt_if_false hcondF, execStmt_block,
        execStmts_cons_some hforElse, execStmts_nil]
  exact ⟨⟨N, vars', 0 + 10 * (Int.tdiv N 10).toNat⟩, hrew, by simp⟩

/-- Claim C3 witness: at `b.N = 5` both the rewritten conditional and the
original loop run the body exactly 5 times. -/
theorem small_bN_semantic_equivalence_witness :
    ∃ st' : St,
      execStmt (benchFuel 5) (rewriteStmt benchLoopEx) (initSt 5) = some st' ∧
      execStmt (benchFuel 5) benchLoopEx (initSt 5) = some st' ∧
      st'.count = 5 := by
  simpa using small_bN_semantic_equivalence 5 (by decide) (by decide)

/-- Claim C2 witness: at `b.N = 10` the body runs exactly 10 times; at
`b.N = 23` it runs exactly 20 times, not 23. -/
theorem large_bN_truncation_witness :
    (∃ st' : St,
      execStmt (benchFuel 10) (rewriteStmt benchLoopEx) (initSt 10) = some st' ∧
      st'.count = 10) ∧
    (∃ st' : St,
      execStmt (benchFuel 23) (rewriteStmt benchLoopEx) (initSt 23) = some st' ∧
      st'.count = 20) := by
  constructor
  · obtain ⟨st', h1, h2⟩ := large_bN_truncation 10 (by decide)
    exact ⟨st', h1, by rw [h2]; decide⟩
  · obtain ⟨st', h1, h2⟩ := large_bN_truncation 23 (by decide)
    exact ⟨st', h1, by rw [h2]; decide⟩

end Unrollbench

namespace Unrollbench

lemma map_eq_self_of_eq {α : Type} {l : List α} {f : α → α}
    (h : ∀ x ∈ l, f x = x) : l.map f = l := by
  induction l with
  | nil => rfl
  | cons a t ih => simp_all

lemma rewriteAt_of_match {l : List Stmt} {i : Nat} {s : Stmt} {idv : String}
    {body : List Stmt} (hs : l[i]? = some s)
    (hm : isBenchForLoop s = some (idv, body)) :
    ∃ rhs tk, rewriteAt l i = l.set i (unrolled
      (some (Stmt.assign [Expr.ident idv] [rhs] tk))
      (some (Expr.binary (Expr.ident idv) Tok.lss
        (Expr.selector (Expr.ident "b") "N")))
      (some (Stmt.incDec (Expr.ident idv) Tok.inc)) idv body) := by
  obtain ⟨rhs, tk, rfl⟩ := (isBenchForLoop_eq_some _ _ _).mp hm
  refine ⟨rhs, tk, ?_⟩
  have hgd : l.getD i (Stmt.other "") = Stmt.forStmt
      (some (Stmt.assign [Expr.ident idv] [rhs] tk))
      (some (Expr.binary (Expr.ident idv) Tok.lss
        (Expr.selector (Expr.ident "b") "N")))
      (some (Stmt.incDec (Expr.ident idv) Tok.inc)) body := by
    rw [List.getD_eq_getElem?_getD, hs]
    rfl
  unfold rewriteAt
  rw [hgd]
  simp [hm]

lemma rewriteFile_eq_self_of_no_match {f : File} (h : fileHasMatch f = false) :
    rewriteFile f = f := by
  rcases f with ⟨decls⟩
  unfold fileHasMatch at h
  rw [List.any_eq_false] at h
  unfold rewriteFile
  simp only [File.mk.injEq]
  apply map_eq_self_of_eq
  intro d hd
  have hd' := h d hd
  cases d with
  | otherDecl t => rfl
  | funcDecl fn =>
    simp at hd'
    by_cases hb : isBench fn = true
    · have hbody : rewriteBody fn.body = fn.body :=
        map_eq_self_of_eq (fun s hsin => rewriteStmt_of_none (hd' hb s hsin))
      simp [rewriteDecl, hb, hbody]
    · simp [rewriteDecl, hb]

end Unrollbench

namespace Unrollbench

/-- Claim C7: rewriting one matched loop replaces exactly the statement at
the matched index of the owning function's body (one statement in, one
statement out); every other statement of that body, the function's name and
parameters, and every other declaration of the file are left unchanged. -/
theorem rewrite_splice_frame (f : File) (di i : Nat) (fn : FuncDecl)
    (s : Stmt) (idv : String) (body : List Stmt)
    (hd : f.decls[di]? = some (Decl.funcDecl fn))
    (hs : fn.body[i]? = some s)
    (hm : isBenchForLoop s = some (idv, body)) :
    (rewriteAtFile f di i).decls.length = f.decls.length ∧
    (∀ dj, dj ≠ di → (rewriteAtFile f di i).decls[dj]? = f.decls[dj]?) ∧
    ∃ fn', (rewriteAtFile f di i).decls[di]? = some (Decl.funcDecl fn') ∧
      fn'.name = fn.name ∧ fn'.params = fn.params ∧
      fn'.body.length = fn.body.length ∧
      (∀ j, j ≠ i → fn'.body[j]? = fn.body[j]?) ∧
      ∃ rhs tk, fn'.body[i]? = some (unrolled
        (some (Stmt.assign [Expr.ident idv] [rhs] tk))
        (some (Expr.binary (Expr.ident idv) Tok.lss
          (Expr.selector (Expr.ident "b") "N")))
        (some (Stmt.incDec (Expr.ident idv) Tok.inc)) idv body) := by
  obtain ⟨rhs, tk, hra⟩ := rewriteAt_of_match hs hm
  obtain ⟨hdi, -⟩ := List.getElem?_eq_some.mp hd
  obtain ⟨hii, -⟩ := List.getElem?_eq_some.mp hs
  have hgdd : f.decls.getD di (Decl.otherDecl "") = Decl.funcDecl fn := by
    rw [List.getD_eq_getElem?_getD, hd]
    rfl
  have hfile : rewriteAtFile f di i =
      ⟨f.decls.set di (Decl.funcDecl { fn with body := rewriteAt fn.body i })⟩ := by
    unfold rewriteAtFile
    rw [hgdd]
  refine ⟨?_, ?_, ?_⟩
  · rw [hfile]
    exact List.length_set f.decls di _
  · intro dj hdj
    rw [hfile]
    exact List.getElem?_set_ne (Ne.symm hdj)
  · refine ⟨{ fn with body := rewriteAt fn.body i }, ?_, rfl, rfl, ?_, ?_, ?_⟩
    · rw [hfile]
      exact List.getElem?_set_self hdi
    · show (rewriteAt fn.body i).length = fn.body.length
      rw [hra]
      exact List.length_set fn.body i _
    · intro j hj
      show (rewriteAt fn.body i)[j]? = fn.body[j]?
      rw [hra]
      exact List.getElem?_set_ne (Ne.symm hj)
    · refine ⟨rhs, tk, ?_⟩
      show (rewriteAt fn.body i)[i]? = _
      rw [hra]
      exact List.getElem?_set_self hii

/-- Claim C7 witness: splicing the matched loop of the concrete test file
leaves its other declaration and the declaration count unchanged. -/
theorem rewrite_splice_frame_witness :
    (rewriteAtFile frameFileEx 1 1).decls[0]? = frameFileEx.decls[0]? ∧
    (rewriteAtFile frameFileEx 1 1).decls.length = frameFileEx.decls.length := by
  have h := rewrite_splice_frame frameFileEx 1 1 frameFnEx benchLoopEx "i" [workStmt]
      rfl rfl rfl
  exact ⟨h.2.1 0 (by decide), h.1⟩

/-- Claim C8 counterexample: with original contents "old" and emitted text
"new", a print failure after one character leaves the file holding "n" —
neither fully written nor unchanged, refuting atomicity. -/
theorem overwrite_truncation_counterexample :
    overwriteResult "new" (some 1) ≠ "new" ∧
    overwriteResult "new" (some 1) ≠ "old" ∧
    overwriteResult "new" (some 1) = "n" := by
  refine ⟨by decide, by decide, by decide⟩

/-- Claim C8 (amended): the write-back is not atomic — the destination is
truncated in place before printing; a successful print leaves exactly the
emitted text, a failed print leaves a (possibly empty) prefix of it, and in
general the file ends up neither fully written nor unchanged. -/
theorem overwrite_behaviour (newText : String) (k : Nat) :
    overwriteResult newText none = newText ∧
    overwriteResult newText (some k) = String.mk (newText.data.take k) ∧
    ¬ (∀ (orig txt : String) (fa : Option Nat),
        overwriteResult txt fa = txt ∨ overwriteResult txt fa = orig) := by
  refine ⟨rfl, rfl, fun h => ?_⟩
  rcases h "old" "new" (some 1) with h1 | h1 <;> revert h1 <;> decide

/-- Claim C9: every file of the processing list is written back through the
printer, matches or not; a file without any benchmark-loop match is written
with an unchanged tree (so only printer formatting can differ). -/
theorem every_file_rewritten (files : List (String × File)) (p : String) (f : File)
    (hin : (p, f) ∈ files) :
    (p, rewriteFile f) ∈ mainWrites files ∧
    (mainWrites files).length = files.length ∧
    (fileHasMatch f = false → rewriteFile f = f) := by
  refine ⟨?_, by simp [mainWrites], fun h => rewriteFile_eq_self_of_no_match h⟩
  have := List.mem_map_of_mem (fun pf : String × File => (pf.1, rewriteFile pf.2)) hin
  simpa [mainWrites] using this

/-- Claim C9 witness: a concrete one-file list produces exactly one write,
for that file. -/
theorem every_file_rewritten_witness :
    ("a_test.go", rewriteFile frameFileEx) ∈ mainWrites [("a_test.go", frameFileEx)] := by
  exact (every_file_rewritten [("a_test.go", frameFileEx)] "a_test.go" frameFileEx
    (List.mem_singleton.mpr rfl)).1

end Unrollbench
